import Mathlib

/-!
Verification development for the mock-interview application (`app.py`).

Python strings are modelled as lists of characters (`Str`).  The external
chat-completion endpoint is modelled as a function from the request data and
the attempt index to either a reply or a `GroqError`; everything else is a
direct translation of the source.
-/

abbrev Str := List Char

/-- Characters removed by Python `str.strip ()` (ASCII whitespace). -/
def isSpaceChar (c : Char) : Bool :=
  c = ' ' || c = '\t' || c = '\n' || c = '\r' || c = Char.ofNat 11 || c = Char.ofNat 12

/-- Python `s.strip ()`: remove leading and trailing whitespace. -/
def trimChars (s : Str) : Str :=
  ((s.dropWhile isSpaceChar).reverse.dropWhile isSpaceChar).reverse

/-- Python `s.split (sep, 1)` in the found case: the text before the first
occurrence of `pat` paired with the text after it; `none` when `pat` does not
occur in `s`. -/
def splitFirst (pat : Str) : Str → Option (Str × Str)
  | [] => if pat.isPrefixOf ([] : Str) then some ([], ([] : Str).drop pat.length) else none
  | c :: cs =>
    if pat.isPrefixOf (c :: cs) then some ([], (c :: cs).drop pat.length)
    else (splitFirst pat cs).map (fun p => (c :: p.1, p.2))

/-- Left-to-right scan of Python `s.replace (pat, rep)`, with a fuel argument
(`fuel ≥ s.length` in every use) making the recursion structural; the empty
check on `pat` keeps the function total (the app only replaces the fixed
nonempty label `"EVALUATION:"`). -/
def replaceAllGo (pat rep : Str) : Nat → Str → Str
  | _, [] => []
  | 0, s => s
  | fuel + 1, c :: cs =>
    if 0 < pat.length ∧ pat.isPrefixOf (c :: cs) then
      rep ++ replaceAllGo pat rep fuel ((c :: cs).drop pat.length)
    else
      c :: replaceAllGo pat rep fuel cs

/-- Python `s.replace (pat, rep)`: replace every occurrence, left to right. -/
def replaceAll (pat rep s : Str) : Str :=
  replaceAllGo pat rep s.length s

def labelQ : Str := "QUESTION:".data

def labelE : Str := "EVALUATION:".data

/-- The reply parser of `page_interview` (the `try`/`except ValueError` block):
`resp.split ("QUESTION:", 1)`, then `replace`/`strip` on the two parts, and on
`ValueError` the degraded result `("", resp)`. -/
def parse_response (resp : Str) : Str × Str :=
  match splitFirst labelQ resp with
  | none => ([], resp)
  | some (e, q) => (trimChars (replaceAll labelE [] e), trimChars q)

/-! ### The chat client (`groq_chat`) -/

structure GroqError where
  status_code : Nat
deriving DecidableEq

/-- The test `e.status_code in (429, 500, 503)`. -/
def transientStatus (c : Nat) : Bool :=
  c == 429 || c == 500 || c == 503

structure Msg where
  role : Str
  content : Str
deriving DecidableEq

/-- The external completion endpoint, given the request messages, the
temperature and the attempt index. -/
def Env : Type := List Msg → ℚ → Nat → Except GroqError Str

instance {ε α : Type} [DecidableEq ε] [DecidableEq α] : DecidableEq (Except ε α) := fun a b =>
  match a, b with
  | Except.ok x, Except.ok y =>
    decidable_of_iff (x = y) ⟨fun h => by rw [h], fun h => by cases h; rfl⟩
  | Except.error x, Except.error y =>
    decidable_of_iff (x = y) ⟨fun h => by rw [h], fun h => by cases h; rfl⟩
  | Except.ok _, Except.error _ => isFalse fun h => Except.noConfusion h
  | Except.error _, Except.ok _ => isFalse fun h => Except.noConfusion h

/-- Outcome of one `groq_chat` call, instrumented with the `time.sleep`
durations and with the attempt indices actually issued to the endpoint. -/
structure ChatRun where
  result : Except GroqError (Option Str)
  waits : List Nat
  attempts : List Nat
deriving DecidableEq

/-- The retry loop of `groq_chat` (`for attempt in range (3)`); the second
argument is the number of loop iterations still to run.  Falling off the end
of the loop gives `Except.ok none` (Python implicitly returns `None`). -/
def groq_chat_loop (endpoint : Env) (msgs : List Msg) (temperature : ℚ) :
    Nat → Nat → ChatRun
  | _, 0 => ⟨Except.ok none, [], []⟩
  | attempt, fuel + 1 =>
    match endpoint msgs temperature attempt with
    | Except.ok t => ⟨Except.ok (some t), [], [attempt]⟩
    | Except.error e =>
      if transientStatus e.status_code then
        let r := groq_chat_loop endpoint msgs temperature (attempt + 1) fuel
        ⟨r.result, 2 ^ attempt :: r.waits, attempt :: r.attempts⟩
      else ⟨Except.error e, [], [attempt]⟩

/-- `groq_chat (msgs, temperature)` over an abstract endpoint. -/
def groq_chat (msgs : List Msg) (temperature : ℚ) (endpoint : Env) : ChatRun :=
  groq_chat_loop endpoint msgs temperature 0 3

/-! ### Data model -/

inductive Role where
  | interviewer
  | candidate
deriving DecidableEq

/-- One chat message of the transcript: `{"role": ..., "content": ..., "eval": ...}`. -/
structure Turn where
  role : Role
  content : Str
  eval : Option Str
deriving DecidableEq

/-- The `st.session_state.form` dictionary. -/
structure Form where
  company_name : Str
  job_title : Str
  company_desc : Str
  job_desc : Str
  round : Str
  tech_stack : Str
  criteria : Str
deriving DecidableEq

/-- `st.session_state` (the fields the interview logic touches; the lazily
created client object is abstracted by the endpoint parameter).  `report_md`
is an `Option` because `groq_chat` can produce Python `None`. -/
structure SessionState where
  page : Str
  api_key : Str
  form : Form
  profile_md : Str
  history : List Turn
  show_eval : Bool
  report_md : Option Str
deriving DecidableEq

def defaultForm : Form :=
  { company_name := [], job_title := [], company_desc := [], job_desc := []
    round := "Technical".data, tech_stack := [], criteria := [] }

/-- `init_session` defaults; `hasKey` models whether `GROQ_API_KEY` is set
(`key` its value). -/
def init_session (hasKey : Bool) (key : Str) : SessionState :=
  { page := if hasKey then "landing".data else "apikey".data
    api_key := if hasKey then key else []
    form := defaultForm
    profile_md := []
    history := []
    show_eval := true
    report_md := some [] }

/-- `PRELOADED_TEMPLATES` (name, config). -/
def PRELOADED_TEMPLATES : List (Str × Form) :=
  [("Full-Stack Developer".data,
    { company_name := "Tech Corp".data
      job_title := "Senior Full-Stack Developer".data
      company_desc := "A product-led SaaS scale-up delivering web & mobile solutions.".data
      job_desc := "Own the end-to-end SDLC, design scalable REST/GraphQL APIs, and coach juniors.".data
      round := "Technical".data
      tech_stack := "Python, TypeScript, React, Node.js, AWS".data
      criteria := "System-design depth, code quality, mentorship mindset.".data }),
   ("Machine-Learning Engineer".data,
    { company_name := "Vision AI Labs".data
      job_title := "ML Engineer".data
      company_desc := "We build computer-vision products for logistics.".data
      job_desc := "Prototype & ship deep-learning models, own MLOps pipeline.".data
      round := "Technical".data
      tech_stack := "Python, PyTorch, TensorFlow, Kubeflow".data
      criteria := "Model-building, data-centric mindset, deployment chops.".data }),
   ("DevOps Engineer".data,
    { company_name := "CloudOps Inc.".data
      job_title := "DevOps Engineer (AWS / K8s)".data
      company_desc := "Managed-services provider focused on high-availability platforms.".data
      job_desc := "Automate IaC, CI/CD, observability and incident response.".data
      round := "Technical".data
      tech_stack := "AWS, Terraform, Docker, Kubernetes, Go".data
      criteria := "Resilience patterns, IaC best-practices, SRE thinking.".data }),
   ("Product Manager".data,
    { company_name := "FinTech Neo".data
      job_title := "Product Manager – Payments".data
      company_desc := "Digital bank building next-gen payments experience.".data
      job_desc := "Define roadmap, own KPIs, collaborate with design & engineering.".data
      round := "Behavioral".data
      tech_stack := []
      criteria := "Stakeholder comms, metrics-driven decisions, user empathy.".data })]

/-! ### Prompt builder -/

/-- `tech_block` of `generate_profile`:
`f"Tech Stack: {...}\n" if form['tech_stack'] else ""`. -/
def tech_block (form : Form) : Str :=
  if form.tech_stack ≠ [] then "Tech Stack: ".data ++ form.tech_stack ++ "\n".data else []

def profileChunkHead : Str :=
  ("\n        You are an expert interviewer-profile generator.\n\n        "
   ++ "Produce a concise markdown profile including:\n        "
   ++ "1. **A realistic Name & Title** (e.g. “Jordan Lee – Senior Product Manager”)"
   ++ " — **never use placeholders**\n        2. Interview Style\n        "
   ++ "3. Core Focus Areas\n        4. Typical Question Types\n        "
   ++ "5. Evaluation Rubric\n        6. Culture-fit Signals\n        "
   ++ "7. Common Candidate Mistakes\n\n        Company: ").data

/-- The profile-generation prompt of `generate_profile` (the f-string body;
`textwrap.dedent` only strips a uniform indentation margin, which cannot add
or remove the tech-stack line). -/
def profile_prompt (form : Form) : Str :=
  profileChunkHead ++ form.company_name
    ++ "\n        Job title: ".data ++ form.job_title
    ++ "\n        Company description: ".data ++ form.company_desc
    ++ "\n        Job description: ".data ++ form.job_desc
    ++ "\n        Interview round: ".data ++ form.round
    ++ "\n        ".data ++ tech_block form
    ++ "\n        Evaluation criteria: ".data ++ form.criteria
    ++ "\n    ".data

/-- Modelled from the spec: the same profile prompt rendered with no
tech-stack line at all (the spec says the prompt for a non-Technical round
"contains no tech-stack line"). -/
def profile_prompt_no_tech (form : Form) : Str :=
  profileChunkHead ++ form.company_name
    ++ "\n        Job title: ".data ++ form.job_title
    ++ "\n        Company description: ".data ++ form.company_desc
    ++ "\n        Job description: ".data ++ form.job_desc
    ++ "\n        Interview round: ".data ++ form.round
    ++ "\n        ".data
    ++ "\n        Evaluation criteria: ".data ++ form.criteria
    ++ "\n    ".data

/-- The `page_setup` form logic for the tech-stack field (lines 177-181):
a Technical round keeps the user-supplied tech stack, every other round
forces it to the empty string. -/
def setup_normalize (f : Form) : Form :=
  if f.round = "Technical".data then f else { f with tech_stack := [] }

/-- The greeting prompt of `page_interview` (history empty). -/
def greet_prompt (profile : Str) : Str :=
  "\n            ".data ++ profile
    ++ ("\n\n            Start the mock interview with:\n            "
        ++ "• A brief professional greeting **using your own name** from the profile "
        ++ "              (or invent one). **Do not write “[Interviewer’s Name]”.**"
        ++ "\n            • The first tailored question.\n        ").data

def roleStr : Role → Str
  | Role.interviewer => "interviewer".data
  | Role.candidate => "candidate".data

/-- One line of the transcript rendering `f"{m['role']}: {m['content']}"`. -/
def convoLine (t : Turn) : Str :=
  roleStr t.role ++ ": ".data ++ t.content

/-- `"\n".join (...)` over the history. -/
def convo (l : List Turn) : Str :=
  List.intercalate "\n".data (l.map convoLine)

/-- The follow-up prompt of `page_interview` (candidate-reply branch). -/
def follow_prompt (profile conv : Str) : Str :=
  "\n            ".data ++ profile
    ++ ("\n\n            Continue the interview.\n\n            "
        ++ "Provide exactly two lines:\n            EVALUATION: <brief feedback>"
        ++ "\n            QUESTION: <specific follow-up question>\n\n            "
        ++ "Conversation so far:\n            ").data
    ++ conv ++ "\n        ".data

/-- Python `str.capitalize ()` applied to the two role strings. -/
def roleCap : Role → Str
  | Role.interviewer => "Interviewer".data
  | Role.candidate => "Candidate".data

/-- One line of the report transcript, with the eval suffix when the turn
carries a truthy (non-`None`, nonempty) evaluation. -/
def reportLine (t : Turn) : Str :=
  roleCap t.role ++ ": ".data ++ t.content
    ++ (match t.eval with
        | some e => if e ≠ [] then "  [Eval: ".data ++ e ++ "]".data else []
        | none => [])

/-- The report prompt of `generate_report`. -/
def report_prompt (profile : Str) (l : List Turn) : Str :=
  ("\n        Role: interview evaluator. Write a detailed markdown report "
   ++ "        (summary, assessments, recommendations).\n\n        Profile:\n        ").data
    ++ profile ++ "\n\n        Conversation:\n        ".data
    ++ List.intercalate "\n".data (l.map reportLine) ++ "\n    ".data

def sysMsg (content : Str) : Msg := ⟨"system".data, content⟩

def userMsg (content : Str) : Msg := ⟨"user".data, content⟩

def greet_msgs (profile : Str) : List Msg :=
  [sysMsg "You are an interviewer.".data, userMsg (greet_prompt profile)]

def follow_msgs (profile conv : Str) : List Msg :=
  [sysMsg "You are an interviewer.".data, userMsg (follow_prompt profile conv)]

def report_msgs (profile : Str) (l : List Turn) : List Msg :=
  [sysMsg "You are an expert interview evaluator".data, userMsg (report_prompt profile l)]

/-! ### The interview page as a step function

One Streamlit rerun of `page_interview` executes the greeting block, the
candidate-reply block and the report block in order, mutating
`st.session_state` in place; an uncaught exception aborts the rest of the
script but the mutations already made persist.  The step functions below
return the state as left by the run, the uncaught exception (if any), and a
log of the mutation events performed on the history, in order. -/

/-- An uncaught Python exception of a `page_interview` run: a `GroqError`
re-raised by `groq_chat`, or the `AttributeError` from `None.strip ()` when
`groq_chat` falls off its retry loop. -/
inductive PyErr where
  | groqError (e : GroqError)
  | attrError
deriving DecidableEq

/-- History-mutation events of one run. -/
inductive Ev where
  | greetAppend (t : Turn)
  | candAppend (t : Turn)
  | evalSet (i : Nat) (v : Str)
  | followAppend (t : Turn)
  | reportSet
deriving DecidableEq

/-- `history[i]["eval"] = some v` (out-of-range indices change nothing). -/
def setEval : List Turn → Nat → Str → List Turn
  | [], _, _ => []
  | t :: ts, 0, v => { t with eval := some v } :: ts
  | t :: ts, n + 1, v => t :: setEval ts n v

/-- `groq_chat (...).strip ()`: a `GroqError` propagates, a `None` result
raises `AttributeError`, a text result is stripped. -/
def stripCall (r : Except GroqError (Option Str)) : Except PyErr Str :=
  match r with
  | Except.error e => Except.error (PyErr.groqError e)
  | Except.ok none => Except.error PyErr.attrError
  | Except.ok (some t) => Except.ok (trimChars t)

/-- Lines 238-251: generate and append the greeting when the history is
empty. -/
def greetStep (endpoint : Env) (s : SessionState) : SessionState × Option PyErr × List Ev :=
  if s.history.isEmpty then
    match stripCall (groq_chat (greet_msgs s.profile_md) (1/2) endpoint).result with
    | Except.error pe => (s, some pe, [])
    | Except.ok g =>
      ({ s with history := s.history ++ [⟨Role.interviewer, g, none⟩] }, none,
       [Ev.greetAppend ⟨Role.interviewer, g, none⟩])
  else (s, none, [])

/-- Lines 262-297: the candidate-reply branch.  `user_txt` is the value of
`st.chat_input` (`none` when no new input; the empty string is falsy, so it
is a no-op).  The candidate turn is appended *before* the chat call; the
eval back-fill writes `history[-2]`, which at that moment is the turn
*preceding* the just-appended candidate turn. -/
def answerStep (endpoint : Env) (s : SessionState) (user_txt : Option Str) :
    SessionState × Option PyErr × List Ev :=
  match user_txt with
  | none => (s, none, [])
  | some u =>
    if u = [] then (s, none, [])
    else
      match stripCall (groq_chat (follow_msgs s.profile_md
          (convo (s.history ++ [⟨Role.candidate, u, none⟩]))) (1/2) endpoint).result with
      | Except.error pe =>
        ({ s with history := s.history ++ [⟨Role.candidate, u, none⟩] }, some pe,
         [Ev.candAppend ⟨Role.candidate, u, none⟩])
      | Except.ok resp =>
        ({ s with history :=
            (setEval (s.history ++ [⟨Role.candidate, u, none⟩])
                ((s.history ++ [(⟨Role.candidate, u, none⟩ : Turn)]).length - 2) (parse_response resp).1
              ++ [⟨Role.interviewer, (parse_response resp).2, none⟩]) }, none,
         [Ev.candAppend ⟨Role.candidate, u, none⟩,
          Ev.evalSet ((s.history ++ [(⟨Role.candidate, u, none⟩ : Turn)]).length - 2) (parse_response resp).1,
          Ev.followAppend ⟨Role.interviewer, (parse_response resp).2, none⟩])

/-- Lines 300-302: the report block (`len (history) >= 4 and st.button`);
`generate_report` passes the raw `groq_chat` result through, so `report_md`
becomes `None` when the retries were exhausted. -/
def reportStep (endpoint : Env) (s : SessionState) (click : Bool) :
    SessionState × Option PyErr × List Ev :=
  if 4 ≤ s.history.length ∧ click = true then
    match (groq_chat (report_msgs s.profile_md s.history) (1/4) endpoint).result with
    | Except.error e => (s, some (PyErr.groqError e), [])
    | Except.ok v => ({ s with report_md := v }, none, [Ev.reportSet])
  else (s, none, [])

/-- Sequencing of script blocks: an uncaught exception in an earlier block
skips the rest of the script, keeping the mutations already made. -/
def andThen (r : SessionState × Option PyErr × List Ev)
    (k : SessionState → SessionState × Option PyErr × List Ev) :
    SessionState × Option PyErr × List Ev :=
  match r with
  | (s, some pe, log) => (s, some pe, log)
  | (s, none, log) => ((k s).1, (k s).2.1, log ++ (k s).2.2)

/-- One full rerun of `page_interview`: greeting block, candidate block,
report block, each skipped once an exception has aborted the script. -/
def page_interview_run (endpoint : Env) (s0 : SessionState) (user_txt : Option Str)
    (report_click : Bool) : SessionState × Option PyErr × List Ev :=
  andThen (greetStep endpoint s0) fun s1 =>
    andThen (answerStep endpoint s1 user_txt) fun s2 =>
      reportStep endpoint s2 report_click

/-- Session states reachable by completed interview actions: any state whose
history is still empty, extended by successful `page_interview` runs. -/
inductive InterviewReachable : SessionState → Prop where
  | init (s : SessionState) (h : s.history = []) : InterviewReachable s
  | step (endpoint : Env) (s : SessionState) (u : Option Str) (rc : Bool)
      (hs : InterviewReachable s)
      (hok : (page_interview_run endpoint s u rc).2.1 = none) :
      InterviewReachable (page_interview_run endpoint s u rc).1

/-- The shape invariant actually maintained on a nonempty history: odd
length, roles alternating starting (and ending) with the interviewer,
candidate turns never evaluated, the final interviewer turn not yet
evaluated, and every earlier interviewer turn carrying an evaluation. -/
def HistInv (l : List Turn) : Prop :=
  l.length % 2 = 1 ∧
  (∀ i t, l[i]? = some t → t.role = (if i % 2 = 0 then Role.interviewer else Role.candidate)) ∧
  (∀ t ∈ l, t.role = Role.candidate → t.eval = none) ∧
  (∃ g, l.getLast? = some ⟨Role.interviewer, g, none⟩) ∧
  (∀ i t, l[i]? = some t → i % 2 = 0 → i + 1 < l.length → t.eval ≠ none)

/-- `pat` matches none of its own nontrivial shifts (no straddling
occurrence of `pat` can begin strictly inside a text that does not contain
`pat` and is followed by `pat` itself). -/
def selfOverlapFree (pat : Str) : Prop :=
  ∀ m < pat.length, 0 < m → pat.drop m ≠ pat.take (pat.length - m)

instance (pat : Str) : Decidable (selfOverlapFree pat) :=
  decidable_of_iff
    (∀ m ∈ List.range pat.length, 0 < m → pat.drop m ≠ pat.take (pat.length - m))
    (by simp [selfOverlapFree, List.mem_range])

/-! ### Concrete instances used by witnesses and counterexamples -/

/-- An interview-page state holding one interviewer turn. -/
def sOneTurn : SessionState :=
  { page := "interview".data, api_key := "k".data, form := defaultForm
    profile_md := "P".data
    history := [⟨Role.interviewer, "Hi. Q1?".data, none⟩]
    show_eval := true, report_md := some [] }

/-- An interview-page state with an empty history. -/
def sEmptyHist : SessionState :=
  { page := "interview".data, api_key := "k".data, form := defaultForm
    profile_md := "P".data, history := [], show_eval := true, report_md := some [] }

/-- Endpoint failing every attempt with a non-transient 400. -/
def envFail400 : Env := fun _ _ _ => Except.error ⟨400⟩

/-- Endpoint failing every attempt with a transient 429. -/
def envFail429 : Env := fun _ _ _ => Except.error ⟨429⟩

/-- Endpoint failing the first two attempts with 429, then succeeding. -/
def envTwoThenOk : Env :=
  fun _ _ a => if a < 2 then Except.error ⟨429⟩ else Except.ok "ok".data

/-- Endpoint answering every call with a well-formed two-line reply. -/
def envTwoLine : Env := fun _ _ _ => Except.ok "EVALUATION: good\nQUESTION: next?".data

/-- Endpoint answering every call with a greeting text. -/
def envGreet : Env := fun _ _ _ => Except.ok "Hello, I am Sam. Q1?".data

/-! ### Lemmas about `splitFirst` and `replaceAll` -/

theorem isPrefixOf_true_iff (l₁ l₂ : Str) : l₁.isPrefixOf l₂ = true ↔ l₁ <+: l₂ :=
  List.isPrefixOf_iff_prefix


theorem splitFirst_none_iff (pat s : Str) : splitFirst pat s = none ↔ ¬ pat <:+: s := by
  induction s with
  | nil =>
    by_cases hp : pat.isPrefixOf ([] : Str)
    · simp only [splitFirst, if_pos hp]
      simp only [reduceCtorEq, false_iff, not_not]
      exact ((isPrefixOf_true_iff _ _).mp hp).isInfix
    · simp only [splitFirst, if_neg hp, true_iff]
      intro h
      have hnil : pat = [] := by
        rcases h with ⟨a, b, hab⟩
        have hlen := congrArg List.length hab
        simp only [List.length_append, List.length_nil] at hlen
        exact List.length_eq_zero.mp (by omega)
      exact hp (by simp [hnil, List.isPrefixOf])
  | cons c cs ih =>
    by_cases hp : pat.isPrefixOf (c :: cs)
    · simp only [splitFirst, if_pos hp]
      simp only [reduceCtorEq, false_iff, not_not]
      exact ((isPrefixOf_true_iff _ _).mp hp).isInfix
    · have hnp : ¬ pat <+: (c :: cs) := fun h => hp ((isPrefixOf_true_iff _ _).mpr h)
      simp only [splitFirst, if_neg hp, Option.map_eq_none', ih, List.infix_cons_iff, hnp,
        false_or]

theorem splitFirst_eq_append (pat s e q : Str) (h : splitFirst pat s = some (e, q)) :
    s = e ++ pat ++ q := by
  induction s generalizing e q with
  | nil =>
    cases pat with
    | nil =>
      simp only [splitFirst, List.isPrefixOf, if_pos, List.drop_nil, Option.some.injEq,
        Prod.mk.injEq] at h
      simp [← h.1, ← h.2]
    | cons p0 pt =>
      simp [splitFirst, List.isPrefixOf] at h
  | cons c cs ih =>
    by_cases hp : pat.isPrefixOf (c :: cs)
    · simp only [splitFirst, if_pos hp, Option.some.injEq, Prod.mk.injEq] at h
      obtain ⟨t, ht⟩ := (isPrefixOf_true_iff _ _).mp hp
      rw [← h.1, ← h.2, ← ht, List.drop_left]
      simp
    · simp only [splitFirst, if_neg hp] at h
      rcases hsf : splitFirst pat cs with _ | ⟨e', q'⟩
      · rw [hsf] at h; simp at h
      · rw [hsf] at h
        simp only [Option.map_some', Option.some.injEq, Prod.mk.injEq] at h
        rw [← h.1, ← h.2]
        have := ih e' q' hsf
        simp [this]

theorem replaceAllGo_of_not_infix (pat rep : Str) :
    ∀ (s : Str) (fuel : Nat), ¬ pat <:+: s → replaceAllGo pat rep fuel s = s := by
  intro s
  induction s with
  | nil => intro fuel _; cases fuel <;> rfl
  | cons c cs ih =>
    intro fuel h
    cases fuel with
    | zero => rfl
    | succ f =>
      have hguard : ¬ (0 < pat.length ∧ pat.isPrefixOf (c :: cs)) := by
        rintro ⟨-, hpf⟩
        exact h ((isPrefixOf_true_iff _ _).mp hpf).isInfix
      simp only [replaceAllGo, if_neg hguard, List.cons.injEq, true_and]
      exact ih f fun hc => h (List.infix_cons hc)

theorem replaceAll_of_not_infix (pat rep s : Str) (h : ¬ pat <:+: s) :
    replaceAll pat rep s = s :=
  replaceAllGo_of_not_infix pat rep s s.length h

theorem replaceAllGo_fuel (pat rep : Str) :
    ∀ (fuel₁ fuel₂ : Nat) (s : Str), s.length ≤ fuel₁ → s.length ≤ fuel₂ →
      replaceAllGo pat rep fuel₁ s = replaceAllGo pat rep fuel₂ s := by
  intro fuel₁
  induction fuel₁ with
  | zero =>
    intro fuel₂ s hs₁ _
    have : s = [] := List.length_eq_zero.mp (Nat.le_zero.mp hs₁)
    subst this
    cases fuel₂ <;> rfl
  | succ f ih =>
    intro fuel₂ s hs₁ hs₂
    cases s with
    | nil => cases fuel₂ <;> rfl
    | cons c cs =>
      cases fuel₂ with
      | zero => simp at hs₂
      | succ g =>
        by_cases hguard : 0 < pat.length ∧ pat.isPrefixOf (c :: cs)
        · simp only [replaceAllGo, if_pos hguard]
          congr 1
          have hp := hguard.1
          apply ih <;> (simp only [List.length_drop, List.length_cons] at *; omega)
        · simp only [replaceAllGo, if_neg hguard, List.cons.injEq, true_and]
          apply ih <;> (simp only [List.length_cons] at hs₁ hs₂; omega)

theorem not_prefix_of_append_mid (pat : Str) (hov : selfOverlapFree pat) (c : Char)
    (x y : Str) (hx : ¬ pat <:+: (c :: x)) : ¬ pat <+: ((c :: x) ++ pat ++ y) := by
  intro hpre
  rw [List.append_assoc] at hpre
  by_cases hL : pat.length ≤ (c :: x).length
  · exact hx ((List.isPrefix_append_of_length hL).mp hpre).isInfix
  · push_neg at hL
    have hXpos : 0 < (c :: x).length := by simp
    have htake := List.prefix_iff_eq_take.mp hpre
    have h1 : pat.take (c :: x).length = c :: x := by
      rw [htake, List.take_take, min_eq_left (le_of_lt hL),
        List.take_append_of_le_length (le_refl _), List.take_length]
    have h2 : (c :: x) ++ pat.drop (c :: x).length = pat := by
      have h2a := List.take_append_drop (c :: x).length pat
      rw [h1] at h2a
      exact h2a
    have h4 : pat.drop (c :: x).length <+: pat ++ y := by
      have h3 : (c :: x) ++ pat.drop (c :: x).length <+: (c :: x) ++ (pat ++ y) := by
        rw [h2]; exact hpre
      exact (List.prefix_append_right_inj (c :: x)).mp h3
    have h5 : pat.drop (c :: x).length <+: pat := by
      refine (List.isPrefix_append_of_length ?_).mp h4
      simp [List.length_drop]
    have h6 : pat.drop (c :: x).length = pat.take (pat.length - (c :: x).length) := by
      have := List.prefix_iff_eq_take.mp h5
      rw [this, List.length_drop]
    exact hov (c :: x).length hL hXpos h6

theorem replaceAllGo_append_mid (pat rep y : Str) (hp : pat ≠ [])
    (hov : selfOverlapFree pat) :
    ∀ (x : Str) (fuel : Nat), ¬ pat <:+: x → (x ++ pat ++ y).length ≤ fuel →
      replaceAllGo pat rep fuel (x ++ pat ++ y) = x ++ rep ++ replaceAll pat rep y := by
  intro x
  induction x with
  | nil =>
    intro fuel _ hfuel
    simp only [List.nil_append] at hfuel ⊢
    cases hpat : pat with
    | nil => exact absurd hpat hp
    | cons p0 pat' =>
      subst hpat
      cases fuel with
      | zero => simp at hfuel
      | succ f =>
        rw [List.cons_append]
        have hguard : 0 < (p0 :: pat').length ∧ (p0 :: pat').isPrefixOf (p0 :: (pat' ++ y)) = true := by
          refine ⟨by simp, ?_⟩
          rw [← List.cons_append]
          exact (isPrefixOf_true_iff _ _).mpr (List.prefix_append _ _)
        simp only [replaceAllGo, if_pos hguard]
        have hdrop : (p0 :: (pat' ++ y)).drop (p0 :: pat').length = y := by
          rw [← List.cons_append, List.drop_left]
        rw [hdrop]
        congr 1
        unfold replaceAll
        apply replaceAllGo_fuel
        · simp only [List.length_append, List.length_cons] at hfuel
          omega
        · exact le_refl _
  | cons c x' ih =>
    intro fuel hx hfuel
    cases fuel with
    | zero => simp at hfuel
    | succ f =>
      have hnp : ¬ pat <+: ((c :: x') ++ pat ++ y) := not_prefix_of_append_mid pat hov c x' y hx
      have hguard : ¬ (0 < pat.length ∧ pat.isPrefixOf ((c :: x') ++ pat ++ y)) := by
        rintro ⟨-, hpf⟩
        exact hnp ((isPrefixOf_true_iff _ _).mp hpf)
      have hx' : ¬ pat <:+: x' := fun hc => hx (List.infix_cons hc)
      have hstep : (c :: x') ++ pat ++ y = c :: (x' ++ pat ++ y) := by simp
      rw [hstep] at hguard ⊢
      simp only [replaceAllGo, if_neg hguard]
      rw [ih f hx' (by simp only [hstep, List.length_cons] at hfuel; omega)]
      simp

theorem replaceAll_append_mid (pat rep x y : Str) (hp : pat ≠ [])
    (hov : selfOverlapFree pat) (hx : ¬ pat <:+: x) :
    replaceAll pat rep (x ++ pat ++ y) = x ++ rep ++ replaceAll pat rep y :=
  replaceAllGo_append_mid pat rep y hp hov x (x ++ pat ++ y).length hx (le_refl _)

theorem labelE_ne_nil : labelE ≠ [] := by decide

theorem labelE_overlapFree : selfOverlapFree labelE := by decide

/-! ### Lemmas about `setEval` and the page steps -/

theorem setEval_length (l : List Turn) (i : Nat) (v : Str) :
    (setEval l i v).length = l.length := by
  induction l generalizing i with
  | nil => rfl
  | cons t ts ih =>
    cases i with
    | zero => rfl
    | succ n => simp [setEval, ih n]

theorem setEval_getElem?_ne (l : List Turn) (i v : _) (j : Nat) (h : j ≠ i) :
    (setEval l i v)[j]? = l[j]? := by
  induction l generalizing i j with
  | nil => rfl
  | cons t ts ih =>
    cases i with
    | zero =>
      cases j with
      | zero => exact absurd rfl h
      | succ k => rfl
    | succ n =>
      cases j with
      | zero => simp [setEval]
      | succ k => simpa [setEval] using ih n k (fun hc => h (by rw [hc]))

theorem setEval_getElem?_eq (l : List Turn) (i : Nat) (v : Str) (t : Turn)
    (h : l[i]? = some t) : (setEval l i v)[i]? = some { t with eval := some v } := by
  induction l generalizing i with
  | nil => simp at h
  | cons a ts ih =>
    cases i with
    | zero =>
      simp only [List.getElem?_cons_zero, Option.some.injEq] at h
      simp [setEval, h]
    | succ n =>
      simpa [setEval] using ih n (by simpa using h)

theorem setEval_append_left (l₁ l₂ : List Turn) (i : Nat) (v : Str) (h : i < l₁.length) :
    setEval (l₁ ++ l₂) i v = setEval l₁ i v ++ l₂ := by
  induction l₁ generalizing i with
  | nil => simp at h
  | cons t ts ih =>
    cases i with
    | zero => rfl
    | succ n =>
      simp only [List.cons_append, setEval, List.cons.injEq, true_and]
      exact ih n (by simpa using h)

theorem setEval_mem (l : List Turn) (i : Nat) (v : Str) (t : Turn)
    (h : t ∈ setEval l i v) :
    t ∈ l ∨ ∃ t0, l[i]? = some t0 ∧ t = { t0 with eval := some v } := by
  induction l generalizing i with
  | nil => simp [setEval] at h
  | cons a ts ih =>
    cases i with
    | zero =>
      rcases List.mem_cons.mp h with rfl | hmem
      · exact Or.inr ⟨a, by simp, rfl⟩
      · exact Or.inl (List.mem_cons_of_mem a hmem)
    | succ n =>
      rcases List.mem_cons.mp h with rfl | hmem
      · exact Or.inl (List.mem_cons_self t ts)
      · rcases ih n hmem with hl | ⟨t0, ht0, rfl⟩
        · exact Or.inl (List.mem_cons_of_mem a hl)
        · exact Or.inr ⟨t0, by simpa using ht0, rfl⟩

theorem setEval_append_head (t : Turn) (xs : List Turn) (i : Nat) (v : Str)
    (tail : List Turn) :
    ∃ ev, (setEval (t :: xs) i v ++ tail).head? = some { t with eval := ev } := by
  cases i with
  | zero => exact ⟨some v, rfl⟩
  | succ n => exact ⟨t.eval, rfl⟩

theorem reportStep_history (endpoint : Env) (s : SessionState) (c : Bool) :
    (reportStep endpoint s c).1.history = s.history := by
  unfold reportStep
  split
  · split <;> rfl
  · rfl

theorem reportStep_no_greet (endpoint : Env) (s : SessionState) (c : Bool) (t : Turn) :
    Ev.greetAppend t ∉ (reportStep endpoint s c).2.2 := by
  unfold reportStep
  split
  · split <;> simp
  · simp

theorem answerStep_no_greet (endpoint : Env) (s : SessionState) (u : Option Str) (t : Turn) :
    Ev.greetAppend t ∉ (answerStep endpoint s u).2.2 := by
  unfold answerStep
  cases u with
  | none => simp
  | some v =>
    by_cases hv : v = []
    · simp [hv]
    · simp only [if_neg hv]
      split <;> simp

theorem answerStep_head (endpoint : Env) (s : SessionState) (u : Option Str) (t0 : Turn)
    (hs : s.history.head? = some t0) :
    ∃ ev, (answerStep endpoint s u).1.history.head? = some { t0 with eval := ev } := by
  cases hh : s.history with
  | nil => rw [hh] at hs; simp at hs
  | cons a l =>
    rw [hh] at hs
    simp only [List.head?_cons, Option.some.injEq] at hs
    subst hs
    unfold answerStep
    cases u with
    | none => exact ⟨a.eval, by simp [hh]⟩
    | some v =>
      by_cases hv : v = []
      · exact ⟨a.eval, by simp [hv, hh]⟩
      · simp only [if_neg hv, hh]
        split
        · exact ⟨a.eval, by simp⟩
        · simp only [List.cons_append]
          exact setEval_append_head a _ _ _ _

theorem greetStep_spec (endpoint : Env) (s : SessionState) :
    (s.history = [] ∧
      ((∃ pe, greetStep endpoint s = (s, some pe, [])) ∨
       ∃ g, greetStep endpoint s =
          ({ s with history := s.history ++ [⟨Role.interviewer, g, none⟩] }, none,
           [Ev.greetAppend ⟨Role.interviewer, g, none⟩]))) ∨
    (s.history ≠ [] ∧ greetStep endpoint s = (s, none, [])) := by
  by_cases hh : s.history.isEmpty
  · left
    refine ⟨List.isEmpty_iff.mp hh, ?_⟩
    unfold greetStep
    rw [if_pos hh]
    rcases hsc : stripCall (groq_chat (greet_msgs s.profile_md) (1/2) endpoint).result with pe | g
    · left
      exact ⟨pe, rfl⟩
    · right
      exact ⟨g, rfl⟩
  · right
    refine ⟨fun hc => hh (by simp [hc]), ?_⟩
    unfold greetStep
    rw [if_neg hh]

theorem answerStep_spec (endpoint : Env) (s : SessionState) (u : Option Str) :
    (answerStep endpoint s u = (s, none, [])) ∨
    (∃ u' pe, u = some u' ∧ u' ≠ [] ∧ answerStep endpoint s u =
        ({ s with history := s.history ++ [⟨Role.candidate, u', none⟩] }, some pe,
         [Ev.candAppend ⟨Role.candidate, u', none⟩])) ∨
    (∃ u' ev q, u = some u' ∧ u' ≠ [] ∧ answerStep endpoint s u =
        ({ s with history :=
            (setEval (s.history ++ [⟨Role.candidate, u', none⟩])
                ((s.history ++ [(⟨Role.candidate, u', none⟩ : Turn)]).length - 2) ev
              ++ [⟨Role.interviewer, q, none⟩]) }, none,
         [Ev.candAppend ⟨Role.candidate, u', none⟩,
          Ev.evalSet ((s.history ++ [(⟨Role.candidate, u', none⟩ : Turn)]).length - 2) ev,
          Ev.followAppend ⟨Role.interviewer, q, none⟩])) := by
  cases u with
  | none => exact Or.inl rfl
  | some v =>
    by_cases hv : v = []
    · left
      simp only [answerStep]
      rw [if_pos hv]
    · right
      simp only [answerStep]
      rw [if_neg hv]
      split
      next pe heq =>
        left
        exact ⟨v, pe, rfl, hv, rfl⟩
      next resp heq =>
        right
        exact ⟨v, (parse_response resp).1, (parse_response resp).2, rfl, hv, rfl⟩

/-! ### Claims about the chat client -/

/-- Claim C3: with an endpoint failing transiently on the first two attempts
and succeeding on the third, `groq_chat` returns the successful result,
having slept exactly 1 and 2 time units and issued exactly the attempts
0, 1, 2 (at most 3 attempts total). -/
theorem groq_chat_two_transient_then_success (msgs : List Msg) (temperature : ℚ)
    (endpoint : Env) (e0 e1 : GroqError) (t : Str)
    (h0 : endpoint msgs temperature 0 = Except.error e0)
    (ht0 : transientStatus e0.status_code = true)
    (h1 : endpoint msgs temperature 1 = Except.error e1)
    (ht1 : transientStatus e1.status_code = true)
    (h2 : endpoint msgs temperature 2 = Except.ok t) :
    groq_chat msgs temperature endpoint = ⟨Except.ok (some t), [1, 2], [0, 1, 2]⟩ := by
  simp [groq_chat, groq_chat_loop, h0, h1, h2, ht0, ht1]

theorem groq_chat_two_transient_then_success_witness :
    groq_chat [] (2/5) envTwoThenOk = ⟨Except.ok (some "ok".data), [1, 2], [0, 1, 2]⟩ :=
  groq_chat_two_transient_then_success [] (2/5) envTwoThenOk ⟨429⟩ ⟨429⟩ "ok".data
    rfl rfl rfl rfl rfl

/-- Claim C4: a non-transient error on the first attempt is re-raised at
once: no sleep, no further attempt. -/
theorem groq_chat_nontransient_aborts (msgs : List Msg) (temperature : ℚ)
    (endpoint : Env) (e : GroqError)
    (h0 : endpoint msgs temperature 0 = Except.error e)
    (hnt : transientStatus e.status_code = false) :
    groq_chat msgs temperature endpoint = ⟨Except.error e, [], [0]⟩ := by
  simp [groq_chat, groq_chat_loop, h0, hnt]

theorem groq_chat_nontransient_aborts_witness :
    groq_chat [] (2/5) envFail400 = ⟨Except.error ⟨400⟩, [], [0]⟩ :=
  groq_chat_nontransient_aborts [] (2/5) envFail400 ⟨400⟩ rfl rfl

/-- Claim C2 (code bug): when all three attempts fail transiently,
`groq_chat` does not re-raise the last error: it sleeps a third time
(4 units) and falls off the loop, returning Python `None` (the callers then
crash on `None.strip ()`). -/
theorem groq_chat_exhausted_retries_returns_none :
    groq_chat [] (2/5) envFail429 = ⟨Except.ok none, [1, 2, 4], [0, 1, 2]⟩ := rfl

/-! ### Claims about the reply parser -/

/-- Claim C5: the two-line reply parses into its evaluation and question
parts, and any reply without the `"QUESTION:"` label parses into an empty
evaluation with the whole reply as the question. -/
theorem parse_response_spec :
    parse_response "EVALUATION: Good clarity\nQUESTION: Tell me about X".data
        = ("Good clarity".data, "Tell me about X".data) ∧
    ∀ resp : Str, ¬ labelQ <:+: resp → parse_response resp = ([], resp) := by
  constructor
  · decide
  · intro resp h
    simp [parse_response, (splitFirst_none_iff labelQ resp).mpr h]

theorem parse_response_spec_witness :
    parse_response "Just a question?".data = ([], "Just a question?".data) :=
  parse_response_spec.2 "Just a question?".data (by decide)

/-- Claim C9: when the reply contains `"QUESTION:"` but no `"EVALUATION:"`,
the evaluation is the stripped text before the first `"QUESTION:"` (the
`replace` is the identity there); and in general every occurrence of
`"EVALUATION:"` before the first `"QUESTION:"` is deleted left to right. -/
theorem parse_response_eval_before_question :
    (∀ resp e q : Str, splitFirst labelQ resp = some (e, q) → ¬ labelE <:+: resp →
        parse_response resp = (trimChars e, trimChars q)) ∧
    (∀ x y : Str, ¬ labelE <:+: x →
        replaceAll labelE [] (x ++ labelE ++ y) = x ++ replaceAll labelE [] y) := by
  constructor
  · intro resp e q hsp hni
    have hdec := splitFirst_eq_append labelQ resp e q hsp
    have hei : ¬ labelE <:+: e := by
      intro hc
      apply hni
      refine hc.trans ?_
      rw [hdec, List.append_assoc]
      exact (List.prefix_append e _).isInfix
    simp [parse_response, hsp, replaceAll_of_not_infix labelE [] e hei]
  · intro x y hx
    have h := replaceAll_append_mid labelE [] x y labelE_ne_nil labelE_overlapFree hx
    simpa using h

theorem parse_response_eval_before_question_witness :
    parse_response "Great answer.\nQUESTION: And next?".data
        = ("Great answer.".data, "And next?".data) ∧
    replaceAll labelE [] ("abc".data ++ labelE ++ "xyz".data)
        = "abc".data ++ replaceAll labelE [] "xyz".data := by
  constructor
  · rw [parse_response_eval_before_question.1 "Great answer.\nQUESTION: And next?".data
      "Great answer.\n".data " And next?".data (by decide) (by decide)]
    decide
  · exact parse_response_eval_before_question.2 "abc".data "xyz".data (by decide)

/-! ### Claims about the profile prompt -/

theorem profile_prompt_of_empty_tech (f : Form) (h : f.tech_stack = []) :
    profile_prompt f = profile_prompt_no_tech f := by
  simp [profile_prompt, profile_prompt_no_tech, tech_block, h]

/-- Claim C6: a config whose round is not Technical (as produced by the
setup page, or taken from the template catalog) renders a profile prompt
with no tech-stack line: the prompt equals the rendering that omits the
tech-stack line entirely. -/
theorem profile_prompt_no_tech_stack_line :
    (∀ f : Form, f.round ≠ "Technical".data →
        profile_prompt (setup_normalize f) = profile_prompt_no_tech (setup_normalize f)) ∧
    (∀ p ∈ PRELOADED_TEMPLATES, p.2.round ≠ "Technical".data →
        profile_prompt p.2 = profile_prompt_no_tech p.2) := by
  constructor
  · intro f hf
    apply profile_prompt_of_empty_tech
    simp [setup_normalize, if_neg hf]
  · intro p hp hr
    simp only [PRELOADED_TEMPLATES, List.mem_cons, List.not_mem_nil, or_false] at hp
    rcases hp with rfl | rfl | rfl | rfl
    · exact absurd rfl hr
    · exact absurd rfl hr
    · exact absurd rfl hr
    · exact profile_prompt_of_empty_tech _ rfl

theorem profile_prompt_no_tech_stack_line_witness :
    profile_prompt (setup_normalize { defaultForm with round := "Behavioral".data })
      = profile_prompt_no_tech (setup_normalize { defaultForm with round := "Behavioral".data }) :=
  profile_prompt_no_tech_stack_line.1 { defaultForm with round := "Behavioral".data } (by decide)

/-! ### Claims about the interview page -/

/-- Claim C1 (amended): when the chat call of a candidate-answer submission
fails, the already-appended candidate turn stays committed; nothing else of
the session state changes (no interviewer turn, no eval back-fill, report
and stage untouched), and the error propagates. -/
theorem failed_submission_keeps_candidate (endpoint : Env) (s : SessionState) (u : Str)
    (e : GroqError) (rc : Bool) (hne : s.history ≠ []) (hu : u ≠ [])
    (hfail : (groq_chat (follow_msgs s.profile_md
        (convo (s.history ++ [⟨Role.candidate, u, none⟩]))) (1/2) endpoint).result
      = Except.error e) :
    page_interview_run endpoint s (some u) rc =
      ({ s with history := s.history ++ [⟨Role.candidate, u, none⟩] },
       some (PyErr.groqError e), [Ev.candAppend ⟨Role.candidate, u, none⟩]) := by
  have hie : s.history.isEmpty = false := by
    cases hh : s.history
    · exact absurd hh hne
    · rfl
  simp only [one_div] at hfail
  simp [page_interview_run, greetStep, hie, andThen, answerStep, hu, stripCall, hfail]

theorem failed_submission_keeps_candidate_witness :
    page_interview_run envFail400 sOneTurn (some "my answer".data) false =
      ({ sOneTurn with history := sOneTurn.history ++ [⟨Role.candidate, "my answer".data, none⟩] },
       some (PyErr.groqError ⟨400⟩), [Ev.candAppend ⟨Role.candidate, "my answer".data, none⟩]) :=
  failed_submission_keeps_candidate envFail400 sOneTurn "my answer".data ⟨400⟩ false
    (by decide) (by decide) (by decide)

/-- Claim C1 counterexample: after a failed submission the session state is
not what it was before the submission — the candidate turn is committed. -/
theorem failed_submission_changes_state :
    (page_interview_run envFail400 sOneTurn (some "my answer".data) false).1 ≠ sOneTurn := by
  decide

theorem andThen_some (s : SessionState) (pe : PyErr) (log : List Ev)
    (k : SessionState → SessionState × Option PyErr × List Ev) :
    andThen (s, some pe, log) k = (s, some pe, log) := rfl

theorem andThen_none (s : SessionState) (log : List Ev)
    (k : SessionState → SessionState × Option PyErr × List Ev) :
    andThen (s, none, log) k = ((k s).1, (k s).2.1, log ++ (k s).2.2) := rfl

theorem andThen_answer_report_no_greet (endpoint : Env) (s1 : SessionState)
    (u : Option Str) (rc : Bool) (t : Turn) :
    Ev.greetAppend t ∉
      (andThen (answerStep endpoint s1 u) fun s2 => reportStep endpoint s2 rc).2.2 := by
  rcases hA : answerStep endpoint s1 u with ⟨s2, e2, log2⟩
  have hlog : Ev.greetAppend t ∉ log2 := by
    have := answerStep_no_greet endpoint s1 u t
    rw [hA] at this
    exact this
  cases e2 with
  | none =>
    simp only [andThen]
    intro hmem
    rcases List.mem_append.mp hmem with h | h
    · exact hlog h
    · exact reportStep_no_greet endpoint s2 rc t h
  | some pe =>
    simpa only [andThen] using hlog

theorem andThen_answer_report_history (endpoint : Env) (s1 : SessionState)
    (u : Option Str) (rc : Bool) :
    (andThen (answerStep endpoint s1 u) fun s2 => reportStep endpoint s2 rc).1.history
      = (answerStep endpoint s1 u).1.history := by
  rcases hA : answerStep endpoint s1 u with ⟨s2, e2, log2⟩
  cases e2 with
  | none => simp only [andThen, reportStep_history]
  | some pe => simp only [andThen]

/-- Claim C8: rendering the interview page with an empty history either
aborts on the greeting chat call, leaving the state untouched (so no
candidate turn can be appended either), or appends exactly one interviewer
turn — the greeting, derived from the profile — as the first history entry
and the first mutation of the run; rendering with a nonempty history appends
no greeting. -/
theorem greeting_on_empty_history (endpoint : Env) (s : SessionState) (u : Option Str)
    (rc : Bool) :
    (s.history = [] →
      ((page_interview_run endpoint s u rc).1 = s ∧
       (page_interview_run endpoint s u rc).2.1 ≠ none ∧
       (page_interview_run endpoint s u rc).2.2 = []) ∨
      (∃ g ev, (page_interview_run endpoint s u rc).2.2.head?
            = some (Ev.greetAppend ⟨Role.interviewer, g, none⟩) ∧
        (∀ t, Ev.greetAppend t ∉ (page_interview_run endpoint s u rc).2.2.tail) ∧
        (page_interview_run endpoint s u rc).1.history.head?
            = some ⟨Role.interviewer, g, ev⟩)) ∧
    (s.history ≠ [] →
      ∀ t, Ev.greetAppend t ∉ (page_interview_run endpoint s u rc).2.2) := by
  rcases greetStep_spec endpoint s with ⟨hemp, hG | hG⟩ | ⟨hne, hG⟩
  · obtain ⟨pe, hG⟩ := hG
    constructor
    · intro _
      left
      unfold page_interview_run
      rw [hG, andThen_some]
      exact ⟨rfl, by simp, rfl⟩
    · intro hne
      exact absurd hemp hne
  · obtain ⟨g, hG⟩ := hG
    constructor
    · intro _
      right
      have hhead : ({ s with history := s.history ++ [⟨Role.interviewer, g, none⟩] } :
          SessionState).history.head? = some ⟨Role.interviewer, g, none⟩ := by
        simp [hemp]
      obtain ⟨ev, hev⟩ := answerStep_head endpoint
        { s with history := s.history ++ [⟨Role.interviewer, g, none⟩] } u
        ⟨Role.interviewer, g, none⟩ hhead
      refine ⟨g, ev, ?_, ?_, ?_⟩
      · unfold page_interview_run
        rw [hG, andThen_none]
        simp
      · unfold page_interview_run
        rw [hG, andThen_none]
        simp only [List.singleton_append, List.tail_cons]
        exact fun t => andThen_answer_report_no_greet endpoint _ u rc t
      · unfold page_interview_run
        rw [hG, andThen_none]
        dsimp only
        rw [andThen_answer_report_history]
        exact hev
    · intro hne
      exact absurd hemp hne
  · constructor
    · intro hemp
      exact absurd hemp hne
    · intro _ t
      unfold page_interview_run
      rw [hG, andThen_none]
      dsimp only
      simp only [List.nil_append]
      exact andThen_answer_report_no_greet endpoint s u rc t

theorem greeting_on_empty_history_witness :
    ((page_interview_run envGreet sEmptyHist none false).1 = sEmptyHist ∧
     (page_interview_run envGreet sEmptyHist none false).2.1 ≠ none ∧
     (page_interview_run envGreet sEmptyHist none false).2.2 = []) ∨
    (∃ g ev, (page_interview_run envGreet sEmptyHist none false).2.2.head?
          = some (Ev.greetAppend ⟨Role.interviewer, g, none⟩) ∧
      (∀ t, Ev.greetAppend t ∉ (page_interview_run envGreet sEmptyHist none false).2.2.tail) ∧
      (page_interview_run envGreet sEmptyHist none false).1.history.head?
          = some ⟨Role.interviewer, g, ev⟩) :=
  (greeting_on_empty_history envGreet sEmptyHist none false).1 rfl

theorem histInv_singleton (g : Str) : HistInv [⟨Role.interviewer, g, none⟩] := by
  refine ⟨rfl, ?_, ?_, ⟨g, rfl⟩, ?_⟩
  · intro i t h
    cases i with
    | zero =>
      simp only [List.getElem?_cons_zero, Option.some.injEq] at h
      subst h
      rfl
    | succ n => simp at h
  · intro t ht hrole
    simp only [List.mem_singleton] at ht
    subst ht
    simp at hrole
  · intro i t h hi hbound
    simp only [List.length_singleton] at hbound
    omega

theorem histInv_answer (l : List Turn) (hInv : HistInv l) (u ev q : Str) :
    HistInv (setEval (l ++ [(⟨Role.candidate, u, none⟩ : Turn)])
        ((l ++ [(⟨Role.candidate, u, none⟩ : Turn)]).length - 2) ev
      ++ [⟨Role.interviewer, q, none⟩]) := by
  obtain ⟨hodd, hrole, hcand, hlast, hev⟩ := hInv
  have hlpos : 0 < l.length := by omega
  have hidx : (l ++ [(⟨Role.candidate, u, none⟩ : Turn)]).length - 2 = l.length - 1 := by
    simp only [List.length_append, List.length_cons, List.length_nil]
    omega
  rw [hidx, setEval_append_left l _ _ _ (by omega)]
  obtain ⟨t0, ht0⟩ : ∃ t0, l[l.length - 1]? = some t0 :=
    ⟨_, List.getElem?_eq_getElem (by omega)⟩
  have ht0role : t0.role = Role.interviewer := by
    have h := hrole _ t0 ht0
    rw [if_pos (by omega)] at h
    exact h
  have hlen' : (setEval l (l.length - 1) ev).length = l.length := setEval_length l _ ev
  have hgetA : ∀ i, i < l.length →
      ((setEval l (l.length - 1) ev ++ [(⟨Role.candidate, u, none⟩ : Turn)])
        ++ [(⟨Role.interviewer, q, none⟩ : Turn)])[i]?
      = (setEval l (l.length - 1) ev)[i]? := by
    intro i hi
    rw [List.getElem?_append_left (by simp only [List.length_append, List.length_cons, List.length_nil, hlen']; omega),
      List.getElem?_append_left (by simp only [List.length_append, List.length_cons, List.length_nil, hlen']; omega)]
  have hgetC :
      ((setEval l (l.length - 1) ev ++ [(⟨Role.candidate, u, none⟩ : Turn)])
        ++ [(⟨Role.interviewer, q, none⟩ : Turn)])[l.length]?
      = some ⟨Role.candidate, u, none⟩ := by
    rw [List.getElem?_append_left (by simp only [List.length_append, List.length_cons, List.length_nil, hlen']; omega),
      List.getElem?_append_right (by simp only [List.length_append, List.length_cons, List.length_nil, hlen']; omega)]
    simp [hlen']
  have hgetI :
      ((setEval l (l.length - 1) ev ++ [(⟨Role.candidate, u, none⟩ : Turn)])
        ++ [(⟨Role.interviewer, q, none⟩ : Turn)])[l.length + 1]?
      = some ⟨Role.interviewer, q, none⟩ := by
    rw [List.getElem?_append_right (by simp only [List.length_append, List.length_cons, List.length_nil, hlen']; omega)]
    simp [hlen']
  have hlenL :
      (((setEval l (l.length - 1) ev ++ [(⟨Role.candidate, u, none⟩ : Turn)])
        ++ [(⟨Role.interviewer, q, none⟩ : Turn)])).length = l.length + 2 := by
    simp [hlen']
  refine ⟨?_, ?_, ?_, ?_, ?_⟩
  · rw [hlenL]; omega
  · intro i t h
    have hbound : i < l.length + 2 := by
      have hb := (List.getElem?_eq_some.mp h).1
      rwa [hlenL] at hb
    rcases (by omega : i < l.length ∨ i = l.length ∨ i = l.length + 1) with hi | rfl | rfl
    · rw [hgetA i hi] at h
      by_cases hieq : i = l.length - 1
      · subst hieq
        rw [setEval_getElem?_eq l _ ev t0 ht0] at h
        have ht := Option.some.inj h
        subst ht
        rw [if_pos (by omega)]
        exact ht0role
      · rw [setEval_getElem?_ne l _ ev i hieq] at h
        exact hrole i t h
    · rw [hgetC] at h
      have ht := Option.some.inj h
      subst ht
      rw [if_neg (by omega)]
    · rw [hgetI] at h
      have ht := Option.some.inj h
      subst ht
      rw [if_pos (by omega)]
  · intro t ht hrt
    rcases List.mem_append.mp ht with ht | ht
    · rcases List.mem_append.mp ht with ht | ht
      · rcases setEval_mem l _ ev t ht with hmem | ⟨t1, ht1, rfl⟩
        · exact hcand t hmem hrt
        · rw [ht0] at ht1
          have := Option.some.inj ht1
          subst this
          rw [show ({ t0 with eval := some ev } : Turn).role = t0.role from rfl, ht0role] at hrt
          exact absurd hrt (by simp)
      · simp only [List.mem_singleton] at ht
        subst ht
        rfl
    · simp only [List.mem_singleton] at ht
      subst ht
      simp at hrt
  · exact ⟨q, List.getLast?_concat _⟩
  · intro i t h hi hbound
    rw [hlenL] at hbound
    rcases (by omega : i < l.length ∨ i = l.length) with hip | rfl
    · rw [hgetA i hip] at h
      by_cases hieq : i = l.length - 1
      · subst hieq
        rw [setEval_getElem?_eq l _ ev t0 ht0] at h
        have ht := Option.some.inj h
        subst ht
        simp
      · rw [setEval_getElem?_ne l _ ev i hieq] at h
        exact hev i t h hi (by omega)
    · omega

/-- The tail of a successful run after the greeting block: the candidate
block either leaves the history alone or performs one answer transform, and
the report block never touches the history. -/
theorem run_tail_inv (endpoint : Env) (s1 : SessionState) (u : Option Str) (rc : Bool)
    (hs1 : HistInv s1.history)
    (hok2 : (andThen (answerStep endpoint s1 u) fun s2 => reportStep endpoint s2 rc).2.1
      = none) :
    HistInv (andThen (answerStep endpoint s1 u) fun s2 => reportStep endpoint s2 rc).1.history := by
  rw [andThen_answer_report_history]
  rcases answerStep_spec endpoint s1 u with hA | ⟨u', pe, hu, hne, hA⟩ | ⟨u', ev, q, hu, hne, hA⟩
  · rw [hA]
    exact hs1
  · exfalso
    rw [hA, andThen_some] at hok2
    simp at hok2
  · rw [hA]
    exact histInv_answer s1.history hs1 u' ev q

/-- Claim C10 (amended): in every reachable session state the history is
either still empty or satisfies `HistInv`: odd length, strictly alternating
roles starting and ending with the interviewer, candidate turns never
carrying an evaluation, the final interviewer turn unevaluated, and every
earlier interviewer turn carrying the evaluation back-filled by the
following answer (the `history[-2]` write lands on interviewer turns, not on
candidate turns). -/
theorem reachable_history_invariant (s : SessionState) (h : InterviewReachable s) :
    s.history = [] ∨ HistInv s.history := by
  induction h with
  | init s hs => exact Or.inl hs
  | step endpoint s u rc hs hok ih =>
    right
    rcases greetStep_spec endpoint s with ⟨hemp, hG | hG⟩ | ⟨hne, hG⟩
    · obtain ⟨pe, hG⟩ := hG
      exfalso
      unfold page_interview_run at hok
      rw [hG, andThen_some] at hok
      simp at hok
    · obtain ⟨g, hG⟩ := hG
      have hbase : HistInv ({ s with history :=
          s.history ++ [⟨Role.interviewer, g, none⟩] } : SessionState).history := by
        have hrw : ({ s with history := s.history ++ [⟨Role.interviewer, g, none⟩] } :
            SessionState).history = [⟨Role.interviewer, g, none⟩] := by
          simp [hemp]
        rw [hrw]
        exact histInv_singleton g
      unfold page_interview_run at hok ⊢
      rw [hG, andThen_none] at hok ⊢
      dsimp only at hok ⊢
      exact run_tail_inv endpoint _ u rc hbase hok
    · have hsinv : HistInv s.history := by
        rcases ih with h0 | hI
        · exact absurd h0 hne
        · exact hI
      unfold page_interview_run at hok ⊢
      rw [hG, andThen_none] at hok ⊢
      dsimp only at hok ⊢
      exact run_tail_inv endpoint s u rc hsinv hok

theorem reachable_history_invariant_witness :
    (page_interview_run envGreet sEmptyHist none false).1.history = [] ∨
    HistInv (page_interview_run envGreet sEmptyHist none false).1.history :=
  reachable_history_invariant (page_interview_run envGreet sEmptyHist none false).1
    (InterviewReachable.step envGreet sEmptyHist none false
      (InterviewReachable.init sEmptyHist rfl) (by decide))

/-- Claim C10 counterexample: a state reachable by a completed greeting and
one successful candidate answer holds an interviewer turn whose evaluation
is not `None` (the back-filled evaluation lands on the greeting turn). -/
theorem interviewer_turn_with_eval_reachable :
    InterviewReachable (page_interview_run envTwoLine
      (page_interview_run envGreet sEmptyHist none false).1
      (some "my answer".data) false).1 ∧
    (page_interview_run envTwoLine
      (page_interview_run envGreet sEmptyHist none false).1
      (some "my answer".data) false).1.history.head?
      = some ⟨Role.interviewer, "Hello, I am Sam. Q1?".data, some "good".data⟩ ∧
    (some "good".data : Option Str) ≠ none := by
  refine ⟨?_, by decide, by decide⟩
  exact InterviewReachable.step envTwoLine
    (page_interview_run envGreet sEmptyHist none false).1 (some "my answer".data) false
    (InterviewReachable.step envGreet sEmptyHist none false
      (InterviewReachable.init sEmptyHist rfl) (by decide))
    (by decide)

/-- Claim C7 (code bug): processing a candidate answer writes the parsed
evaluation onto `history[-2]`, which is the *previous interviewer* turn (the
interviewer turn is appended only afterwards); the candidate turn keeps
`eval = None`. -/
theorem eval_backfill_hits_previous_interviewer :
    (page_interview_run envTwoLine sOneTurn (some "my answer".data) false).1.history =
      [⟨Role.interviewer, "Hi. Q1?".data, some "good".data⟩,
       ⟨Role.candidate, "my answer".data, none⟩,
       ⟨Role.interviewer, "next?".data, none⟩] := by
  decide
